import Mathlib

/-!
Verification of the blobfs engine (`system/ulib/blobfs/blobfs.cpp`) against its
natural-language specification.  The C++ source is shallowly embedded: each
relevant function is translated into an executable Lean definition over pure
state records, with the parts of the environment that live outside this file
(hash oracle, compressor byte counts, block size, reserved extents) passed in
as explicit parameters.  Machine integers are modelled as `Nat`; the unsigned
subtractions in the source are modelled by `Nat` truncated subtraction, which
agrees with the source on the ranges the callers establish.
-/

set_option autoImplicit false

namespace Blobfs

/-- `zx_status_t` values that appear on the paths modelled here. -/
inductive Status
  | ok
  | errBadState
  | errIoDataIntegrity
  | errAlreadyExists
  | errNotFound
  | errNoSpace
  | errIo
  deriving DecidableEq, Repr

/-- Blob lifecycle states (`kBlobStateEmpty`, `kBlobStateDataWrite`,
`kBlobStateReadable`, `kBlobStateError`, `kBlobStatePurged`). -/
inductive BlobState
  | empty
  | dataWrite
  | readable
  | error
  | purged
  deriving DecidableEq, Repr

/-- `fbl::round_up(a, b) / b`: the number of `b`-sized blocks needed to hold
`a` bytes.  Used by the source via `MerkleTreeBlocks` / `BlobDataBlocks`. -/
def divCeil (a b : Nat) : Nat := (a + b - 1) / b

/-- The streaming LZ4 compressor as observed by `blobfs.cpp`: whether
`Compressing()` is true and the current `Size()` of the compressed output.
`Reset()` produces `⟨false, 0⟩` (the compressed scratch buffer is also reset,
which the `size := 0` models). -/
structure Compressor where
  compressing : Bool
  size : Nat
  deriving DecidableEq, Repr

/-- `VnodeBlob::ConsiderCompressionAbort` (blobfs.cpp:725-731): if
`inode_.blob_size - kCompressionMinBytesSaved < compressor.Size()`, reset the
compressor and its buffer, abandoning compression. -/
def ConsiderCompressionAbort (minSaved blobSize : Nat) (c : Compressor) : Compressor :=
  if blobSize - minSaved < c.size then ⟨false, 0⟩ else c

/-- `StreamBlocks` over a `VectorExtentIterator`: the contiguous device runs
(split at extent boundaries) covering blocks `[start, start + n)` of the
reserved extent list.  Only run lengths are tracked; device offsets do not
affect the claims modelled here. -/
def streamRuns : List Nat → Nat → Nat → List Nat
  | [], _, _ => []
  | e :: es, start, n =>
    if n = 0 then []
    else if e ≤ start then streamRuns es (start - e) n
    else
      let avail := e - start
      if n ≤ avail then [n]
      else avail :: streamRuns es 0 (n - avail)

/-- The loop of `EnqueuePaginated` (blobfs.cpp:129-153).  `work` is the list of
run lengths already enqueued into the current `WritebackWork`; the result is
the list of work items flushed to the writeback queue during this call plus
the still-open work item.  `fuel` bounds the iteration count (the source loop
terminates because `kMaxChunkBlocks ≥ 1`; `fuel := n` suffices then). -/
def epGo : Nat → Nat → Nat → List Nat → List (List Nat) × List Nat
  | 0, _, _, work => ([], work)
  | fuel + 1, kMax, n, work =>
    if n = 0 then ([], work)
    else
      let delta := min n kMax
      let work1 := work ++ [delta]
      let n1 := n - delta
      if n1 = 0 then ([], work1)
      else
        let r := epGo fuel kMax n1 []
        (work1 :: r.1, r.2)

/-- `EnqueuePaginated(work, …, nblocks)`: enqueue `n` blocks into `work`,
flushing chunks to the writeback queue whenever more content remains. -/
def enqueuePaginated (kMax n : Nat) (work : List Nat) : List (List Nat) × List Nat :=
  epGo n kMax n work

/-- A `StreamBlocks` callback loop in `WriteInternal`: each contiguous run is
handed to `EnqueuePaginated` with the work item accumulated so far. -/
def enqueueRuns (kMax : Nat) (work : List Nat) : List Nat → List (List Nat) × List Nat
  | [] => ([], work)
  | r :: rs =>
    let p := enqueuePaginated kMax r work
    let q := enqueueRuns kMax p.2 rs
    (p.1 ++ q.1, q.2)

/-- The parts of the environment `VnodeBlob::WriteInternal` consults that are
defined outside `blobfs.cpp`:
- `bs` is `kBlobfsBlockSize`;
- `writebackCapacity` is `blobfs_->WritebackCapacity()` in blocks;
- `minSaved` is `kCompressionMinBytesSaved`;
- `treeLen` is `MerkleTree::GetTreeLength`;
- `root` is the Merkle root digest of a byte sequence, so that
  `MerkleTree::Create` returns `root data`, and `MerkleTree::Verify`
  succeeds on a whole blob exactly when `root data` equals the expected
  digest (digests are modelled as `Nat`);
- `upd s bytes` is the compressor `Size()` after `Update(bytes)` from size
  `s`, and `fin s` its `Size()` after `End()`. -/
structure Env where
  bs : Nat
  writebackCapacity : Nat
  minSaved : Nat
  treeLen : Nat → Nat
  root : List Nat → Nat
  upd : Nat → List Nat → Nat
  fin : Nat → Nat

/-- `MerkleTreeBlocks(inode)`: blocks of the Merkle region. -/
def MerkleTreeBlocks (env : Env) (blobSize : Nat) : Nat :=
  divCeil (env.treeLen blobSize) env.bs

/-- `BlobDataBlocks(inode)`: blocks of the data region. -/
def BlobDataBlocks (env : Env) (blobSize : Nat) : Nat :=
  divCeil blobSize env.bs

/-- `kMaxChunkBlocks = (3 * blobfs->WritebackCapacity()) / 4` from
`EnqueuePaginated`. -/
def kMaxChunkBlocks (env : Env) : Nat := 3 * env.writebackCapacity / 4

/-- The writer-side state `WritebackInfo` of a blob under construction:
bytes written so far, the streaming compressor, and the reserved extents
(as a list of extent lengths in blocks, in disk order). -/
structure WriteInfo where
  bytesWritten : Nat
  comp : Compressor
  extents : List Nat
  deriving DecidableEq, Repr

/-- The vnode state `WriteInternal` reads and writes: lifecycle state, the
inode fields `blob_size` / `block_count` / the compression flag, the digest
the blob was opened under (`digest_`), the bytes buffered into the data
region of the write VMO so far, and the `WritebackInfo`. -/
structure VnodeW where
  state : BlobState
  blobSize : Nat
  blockCount : Nat
  compressedFlag : Bool
  digest : Nat
  buf : List Nat
  wi : WriteInfo
  deriving DecidableEq, Repr

/-- Result of a `WriteInternal` call: the returned status, `*actual`, the
updated vnode, the work items enqueued to the writeback queue with
`EnqueueType::kData` (each a list of run lengths in blocks, including the
final work item enqueued at blobfs.cpp:706), and whether `WriteMetadata`
persisted the inode (node + extent bitmap + superblock through the
journal). -/
structure WriteResult where
  status : Status
  actual : Nat
  vn : VnodeW
  dataItems : List (List Nat)
  metaWritten : Bool
  deriving DecidableEq, Repr

/-- The sequence of data work items produced by the streaming part of the
`WriteInternal` completion phase: the merkle region runs (streamed only when
`merkle_size > 0`) followed by the data (or compressed) region runs, each run
fed through `EnqueuePaginated` into the accumulating work item; the final,
still-open work item is enqueued at blobfs.cpp:706. -/
def dataPipeline (kMax merkleSize : Nat) (runsM runsD : List Nat) : List (List Nat) :=
  let pm := if 0 < merkleSize then enqueueRuns kMax [] runsM else ([], [])
  let pd := enqueueRuns kMax pm.2 runsD
  pm.1 ++ pd.1 ++ [pd.2]

/-- The completion phase of `VnodeBlob::WriteInternal` (blobfs.cpp:602-719),
reached once `bytes_written == blob_size`.  The enqueue operations and
`WriteMetadata` are modelled as succeeding (writeback enabled); the digest
comparison unifies the two source branches: for `merkle_size > 0` the tree is
built and `MerkleTree::Create`'s digest compared against `digest_`
(blobfs.cpp:642-648), for `merkle_size == 0` `Verify()` compares the blob
against `digest_` (blobfs.cpp:660); in both branches a mismatch yields
`ZX_ERR_IO_DATA_INTEGRITY` and the pending `set_error` auto-call moves the
vnode to the Error state. -/
def WriteComplete (env : Env) (v : VnodeW) (toWrite : Nat) : WriteResult :=
  let kMax := kMaxChunkBlocks env
  let merkleBlocks := MerkleTreeBlocks env v.blobSize
  let comp2 :=
    if v.wi.comp.compressing then
      ConsiderCompressionAbort env.minSaved v.blobSize ⟨true, env.fin v.wi.comp.size⟩
    else v.wi.comp
  let v2 := { v with wi := { v.wi with comp := comp2 } }
  let merkleSize := env.treeLen v.blobSize
  if env.root v.buf ≠ v.digest then
    ⟨.errIoDataIntegrity, toWrite, { v2 with state := .error }, [], false⟩
  else if comp2.compressing then
    let blocks := divCeil comp2.size env.bs
    let v3 := { v2 with
      blockCount := blocks + merkleBlocks
      compressedFlag := true
      state := .readable }
    ⟨.ok, toWrite, v3,
      dataPipeline kMax merkleSize (streamRuns v.wi.extents 0 merkleBlocks)
        (streamRuns v.wi.extents merkleBlocks blocks), true⟩
  else
    let blocks := divCeil v.blobSize env.bs
    ⟨.ok, toWrite, { v2 with state := .readable },
      dataPipeline kMax merkleSize (streamRuns v.wi.extents 0 merkleBlocks)
        (streamRuns v.wi.extents merkleBlocks blocks), true⟩

/-- `VnodeBlob::WriteInternal` (blobfs.cpp:569-723).  The chunk is the caller
buffer `data[0..len)`: a write in `DataWrite` state copies
`min(len, blob_size - bytes_written)` bytes into the VMO at offset
`bytes_written + merkle_bytes`, feeds the compressor and the abort check,
and on reaching `blob_size` runs the completion phase. -/
def WriteInternal (env : Env) (v : VnodeW) (chunk : List Nat) : WriteResult :=
  if chunk.length = 0 then ⟨.ok, 0, v, [], false⟩
  else if v.state = .dataWrite then
    let toWrite := min chunk.length (v.blobSize - v.wi.bytesWritten)
    let buf1 := v.buf ++ chunk.take toWrite
    let bw1 := v.wi.bytesWritten + toWrite
    let comp1 :=
      if v.wi.comp.compressing then
        ConsiderCompressionAbort env.minSaved v.blobSize
          ⟨true, env.upd v.wi.comp.size (chunk.take toWrite)⟩
      else v.wi.comp
    let v1 := { v with buf := buf1, wi := { v.wi with bytesWritten := bw1, comp := comp1 } }
    if bw1 < v.blobSize then ⟨.ok, toWrite, v1, [], false⟩
    else WriteComplete env v1 toWrite
  else ⟨.errBadState, 0, v, [], false⟩

/-! Helper lemmas about pagination and block arithmetic. -/

theorem epGo_bound (fuel kMax n : Nat) (work : List Nat)
    (hw : ∀ x ∈ work, x ≤ kMax) :
    (∀ item ∈ (epGo fuel kMax n work).1, ∀ x ∈ item, x ≤ kMax) ∧
    (∀ x ∈ (epGo fuel kMax n work).2, x ≤ kMax) := by
  induction fuel generalizing n work with
  | zero => exact ⟨by simp [epGo], by simpa [epGo] using hw⟩
  | succ fuel ih =>
    by_cases h0 : n = 0
    · simp only [epGo, h0, if_pos rfl]
      exact ⟨by simp, by simpa using hw⟩
    · have hw1 : ∀ x ∈ work ++ [min n kMax], x ≤ kMax := by
        intro x hx
        rcases List.mem_append.mp hx with h | h
        · exact hw x h
        · simp only [List.mem_singleton] at h
          subst h
          exact min_le_right _ _
      by_cases h1 : n - min n kMax = 0
      · simp only [epGo, if_neg h0, if_pos h1]
        exact ⟨by simp, hw1⟩
      · have := ih (n - min n kMax) [] (by simp)
        simp only [epGo, if_neg h0, if_neg h1]
        refine ⟨?_, this.2⟩
        intro item hitem
        rcases List.mem_cons.mp hitem with h | h
        · subst h; exact hw1
        · exact this.1 item h

theorem enqueueRuns_bound (kMax : Nat) (work : List Nat) (runs : List Nat)
    (hw : ∀ x ∈ work, x ≤ kMax) :
    (∀ item ∈ (enqueueRuns kMax work runs).1, ∀ x ∈ item, x ≤ kMax) ∧
    (∀ x ∈ (enqueueRuns kMax work runs).2, x ≤ kMax) := by
  induction runs generalizing work with
  | nil => exact ⟨by simp [enqueueRuns], by simpa [enqueueRuns] using hw⟩
  | cons r rs ih =>
    have h1 := epGo_bound r kMax r work hw
    have h2 := ih (enqueuePaginated kMax r work).2 h1.2
    simp only [enqueueRuns]
    refine ⟨?_, h2.2⟩
    intro item hitem
    rcases List.mem_append.mp hitem with h | h
    · exact h1.1 item h
    · exact h2.1 item h

theorem divCeil_le_divCeil (a b n : Nat) (h : a ≤ b) : divCeil a n ≤ divCeil b n :=
  Nat.div_le_div_right (by omega)

theorem divCeil_lt_of_le_sub (x s b m : Nat) (hb : 0 < b) (hbm : b ≤ m) (hms : m ≤ s)
    (hx : x ≤ s - m) : divCeil x b < divCeil s b := by
  have hbs : b ≤ s := le_trans hbm hms
  have h1 : x ≤ s - b := le_trans hx (Nat.sub_le_sub_left hbm s)
  have h2 : divCeil x b ≤ divCeil (s - b) b := divCeil_le_divCeil _ _ _ h1
  have h3 : divCeil (s - b) b = (s - 1) / b := by
    unfold divCeil
    congr 1
    omega
  have h4 : divCeil s b = (s - 1) / b + 1 := by
    unfold divCeil
    have : s + b - 1 = (s - 1) + b := by omega
    rw [this, Nat.add_div_right _ hb]
  omega

/-- C1: in state `DataWrite` with `blob_size > 0`, when the final byte of the
blob arrives, the computed Merkle root of the buffered data is compared with
the digest the blob was opened under; on a mismatch `WriteInternal` returns
`ZX_ERR_IO_DATA_INTEGRITY`, the vnode transitions to the `Error` state, and
`WriteMetadata` is never invoked (no metadata is written). -/
theorem writeInternal_digest_mismatch (env : Env) (v : VnodeW) (chunk : List Nat)
    (hst : v.state = .dataWrite)
    (_hpos : 0 < v.blobSize)
    (hne : chunk.length ≠ 0)
    (hbw : v.wi.bytesWritten ≤ v.blobSize)
    (hfill : v.blobSize ≤ v.wi.bytesWritten + chunk.length)
    (hmis : env.root (v.buf ++ chunk.take (v.blobSize - v.wi.bytesWritten)) ≠ v.digest) :
    (WriteInternal env v chunk).status = .errIoDataIntegrity ∧
    (WriteInternal env v chunk).vn.state = .error ∧
    (WriteInternal env v chunk).metaWritten = false := by
  have htw : min chunk.length (v.blobSize - v.wi.bytesWritten) =
      v.blobSize - v.wi.bytesWritten := by omega
  have hbw1 : v.wi.bytesWritten + (v.blobSize - v.wi.bytesWritten) = v.blobSize := by omega
  simp only [WriteInternal, if_neg hne, hst, if_pos, htw, hbw1, lt_irrefl, if_false,
    WriteComplete, reduceIte]
  rw [if_pos hmis]
  exact ⟨rfl, rfl, rfl⟩

/-- A concrete environment whose Merkle root oracle returns `5` for every
byte sequence, used to exercise the digest-mismatch path. -/
def mismatchEnv : Env :=
  ⟨2, 4, 1000, fun _ => 0, fun _ => 5, fun s _ => s, fun s => s⟩

/-- A one-byte blob opened under digest `0`, in `DataWrite` with nothing
written yet and one reserved extent of one block. -/
def oneByteVn : VnodeW :=
  ⟨.dataWrite, 1, 1, false, 0, [], ⟨0, ⟨false, 0⟩, [1]⟩⟩

/-- Witness for `writeInternal_digest_mismatch` at a concrete input. -/
theorem writeInternal_digest_mismatch_witness :
    (WriteInternal mismatchEnv oneByteVn [7]).status = .errIoDataIntegrity ∧
    (WriteInternal mismatchEnv oneByteVn [7]).vn.state = .error ∧
    (WriteInternal mismatchEnv oneByteVn [7]).metaWritten = false :=
  writeInternal_digest_mismatch mismatchEnv oneByteVn [7]
    rfl (by decide) (by decide) (by decide) (by decide) (by decide)

/-- A concrete environment whose Merkle root oracle returns `0`, matching the
digest of `oneByteVn`, so a completed write verifies successfully. -/
def matchEnv : Env :=
  ⟨2, 4, 1000, fun _ => 0, fun _ => 0, fun s _ => s, fun s => s⟩

/-- C2 counterexample: a write of 2 bytes to a blob with `blob_size = 1` and
`bytes_written = 0` (so `bytes_written + len > blob_size`) is not rejected:
`WriteInternal` clamps it to 1 byte and returns `ZX_OK` with `*actual = 1`,
refuting "write(buf, len) with bytes_written + len > blob_size does not
succeed". -/
theorem writeInternal_overlong_write_succeeds :
    oneByteVn.blobSize < oneByteVn.wi.bytesWritten + [7, 7].length ∧
    (WriteInternal matchEnv oneByteVn [7, 7]).status = .ok ∧
    (WriteInternal matchEnv oneByteVn [7, 7]).actual = 1 := by
  decide

/-- C2 (amended): a write whose length would carry the total past `blob_size`
is not rejected but clamped: exactly `min(len, blob_size - bytes_written)`
bytes are accepted, the call reports that count in `*actual`, and
`bytes_written` never exceeds `blob_size`. -/
theorem writeComplete_actual (env : Env) (v : VnodeW) (t : Nat) :
    (WriteComplete env v t).actual = t := by
  simp only [WriteComplete]
  repeat' split
  all_goals rfl

theorem writeComplete_bytesWritten (env : Env) (v : VnodeW) (t : Nat) :
    (WriteComplete env v t).vn.wi.bytesWritten = v.wi.bytesWritten := by
  simp only [WriteComplete]
  repeat' split
  all_goals rfl

theorem writeInternal_clamps (env : Env) (v : VnodeW) (chunk : List Nat)
    (hst : v.state = .dataWrite)
    (hbw : v.wi.bytesWritten ≤ v.blobSize) :
    (WriteInternal env v chunk).actual =
      min chunk.length (v.blobSize - v.wi.bytesWritten) ∧
    (WriteInternal env v chunk).vn.wi.bytesWritten ≤ v.blobSize := by
  by_cases h0 : chunk.length = 0
  · simp only [WriteInternal, if_pos h0]
    refine ⟨?_, hbw⟩
    show (0 : Nat) = min chunk.length (v.blobSize - v.wi.bytesWritten)
    omega
  · simp only [WriteInternal, if_neg h0, hst, reduceIte]
    by_cases hlt : v.wi.bytesWritten + min chunk.length (v.blobSize - v.wi.bytesWritten) <
        v.blobSize
    · rw [if_pos hlt]
      refine ⟨rfl, ?_⟩
      show v.wi.bytesWritten + min chunk.length (v.blobSize - v.wi.bytesWritten) ≤ v.blobSize
      omega
    · rw [if_neg hlt]
      refine ⟨writeComplete_actual _ _ _, ?_⟩
      rw [writeComplete_bytesWritten]
      show v.wi.bytesWritten + min chunk.length (v.blobSize - v.wi.bytesWritten) ≤ v.blobSize
      omega

/-- Witness for `writeInternal_clamps` at a concrete input. -/
theorem writeInternal_clamps_witness :
    (WriteInternal matchEnv oneByteVn [7, 7]).actual =
      min [7, 7].length (oneByteVn.blobSize - oneByteVn.wi.bytesWritten) ∧
    (WriteInternal matchEnv oneByteVn [7, 7]).vn.wi.bytesWritten ≤ oneByteVn.blobSize :=
  writeInternal_clamps matchEnv oneByteVn [7, 7] rfl (by decide)

/-- Every chunk inside every work item produced by `dataPipeline` is bounded
by `kMax` blocks. -/
theorem dataPipeline_bound (kMax merkleSize : Nat) (runsM runsD : List Nat) :
    ∀ item ∈ dataPipeline kMax merkleSize runsM runsD, ∀ x ∈ item, x ≤ kMax := by
  unfold dataPipeline
  by_cases h : 0 < merkleSize
  · rw [if_pos h]
    have h1 := enqueueRuns_bound kMax [] runsM (by simp)
    have h2 := enqueueRuns_bound kMax (enqueueRuns kMax [] runsM).2 runsD h1.2
    intro item hitem
    simp only [List.append_assoc, List.mem_append, List.mem_singleton] at hitem
    rcases hitem with h | h | h
    · exact h1.1 item h
    · exact h2.1 item h
    · subst h; exact h2.2
  · rw [if_neg h]
    have h2 := enqueueRuns_bound kMax ([] : List Nat) runsD (by simp)
    intro item hitem
    simp only [List.append_assoc, List.nil_append, List.mem_append,
      List.mem_singleton] at hitem
    rcases hitem with h | h
    · exact h2.1 item h
    · subst h; exact h2.2

/-- C7 counterexample: with writeback capacity 4 blocks
(`kMaxChunkBlocks = 3`), completing a blob with one merkle block and three
data blocks in a single extent hands the writeback queue a single data work
item holding runs `[1, 3]` — 4 blocks, more than 3/4 of the capacity — so
"every single work item handed to the writeback queue contains at most 3/4 of
the writeback capacity worth of blocks" fails. -/
theorem writeInternal_work_item_exceeds_bound :
    ¬ (∀ item ∈ (WriteInternal
          ⟨2, 4, 1000, fun n => if n ≤ 2 then 0 else 2, fun _ => 0,
            fun s _ => s, fun s => s⟩
          ⟨.dataWrite, 5, 4, false, 0, [], ⟨0, ⟨false, 0⟩, [4]⟩⟩
          [9, 9, 9, 9, 9]).dataItems,
        List.sum item ≤ kMaxChunkBlocks
          ⟨2, 4, 1000, fun n => if n ≤ 2 then 0 else 2, fun _ => 0,
            fun s _ => s, fun s => s⟩) := by
  decide

/-- C7 (amended): `EnqueuePaginated` bounds every individual chunk it
enqueues by 3/4 of the writeback capacity, splitting larger content into
chunks flushed as their own work items; but a single work item may aggregate
chunks from several runs (merkle tail plus data, or successive extents), so a
whole work item handed to the queue may exceed the 3/4 bound.  Formally:
every chunk inside every data work item produced by `WriteInternal` is at
most `kMaxChunkBlocks`. -/
theorem writeComplete_chunks_bounded (env : Env) (v : VnodeW) (t : Nat) :
    ∀ item ∈ (WriteComplete env v t).dataItems,
      ∀ x ∈ item, x ≤ kMaxChunkBlocks env := by
  simp only [WriteComplete]
  repeat' split
  all_goals first
    | exact dataPipeline_bound _ _ _ _
    | simp

theorem writeInternal_chunks_bounded (env : Env) (v : VnodeW) (chunk : List Nat) :
    ∀ item ∈ (WriteInternal env v chunk).dataItems,
      ∀ x ∈ item, x ≤ kMaxChunkBlocks env := by
  by_cases h0 : chunk.length = 0
  · simp [WriteInternal, h0]
  · by_cases hst : v.state = .dataWrite
    · simp only [WriteInternal, if_neg h0, hst, reduceIte]
      by_cases hlt : v.wi.bytesWritten + min chunk.length (v.blobSize - v.wi.bytesWritten) <
          v.blobSize
      · rw [if_pos hlt]
        simp
      · rw [if_neg hlt]
        exact writeComplete_chunks_bounded _ _ _
    · simp [WriteInternal, h0, hst]

/-- Witness for `writeInternal_chunks_bounded` at a concrete input: the sole
data work item of the one-byte write is `[1]`, and its chunk is within the
3-block bound. -/
theorem writeInternal_chunks_bounded_witness :
    (1 : Nat) ≤ kMaxChunkBlocks matchEnv :=
  writeInternal_chunks_bounded matchEnv oneByteVn [7, 7] [1] (by decide) 1 (by decide)

/-- C5: while a blob's compressor is active, `WriteInternal` runs the abort
check after each `Update` and again after `End`:
(a) if after a non-final chunk the compressed size exceeds
`blob_size - kCompressionMinBytesSaved`, the compressor and its buffer are
reset (the blob will be stored raw);
(b) if after finalization the compressed size exceeds the threshold, the
compressor is reset, the compression flag is not set, and `block_count`
keeps its reserved value (the blob is stored raw);
(c) if compression is kept, the final `block_count`
(merkle blocks + compressed blocks) is strictly below the reserved
`block_count` and the compression flag is set on the inode.
The hypothesis `env.bs ≤ env.minSaved ≤ v.blobSize` reflects that the
compressor is only initialized for `blob_size ≥ kCompressionMinBytesSaved`
(blobfs.cpp:442) and that the threshold is at least a block. -/
theorem writeInternal_compression (env : Env) (v : VnodeW) (chunk : List Nat)
    (hst : v.state = .dataWrite)
    (hcomp : v.wi.comp.compressing = true)
    (hne : chunk.length ≠ 0)
    (hcf : v.compressedFlag = false)
    (hbs : 0 < env.bs)
    (hmin : env.bs ≤ env.minSaved)
    (hsz : env.minSaved ≤ v.blobSize)
    (hbc : v.blockCount = MerkleTreeBlocks env v.blobSize + BlobDataBlocks env v.blobSize) :
    (v.wi.bytesWritten + min chunk.length (v.blobSize - v.wi.bytesWritten) < v.blobSize →
      v.blobSize - env.minSaved <
          env.upd v.wi.comp.size
            (chunk.take (min chunk.length (v.blobSize - v.wi.bytesWritten))) →
      (WriteInternal env v chunk).vn.wi.comp = ⟨false, 0⟩) ∧
    (v.wi.bytesWritten + min chunk.length (v.blobSize - v.wi.bytesWritten) = v.blobSize →
      env.upd v.wi.comp.size
          (chunk.take (min chunk.length (v.blobSize - v.wi.bytesWritten))) ≤
        v.blobSize - env.minSaved →
      v.blobSize - env.minSaved <
        env.fin (env.upd v.wi.comp.size
          (chunk.take (min chunk.length (v.blobSize - v.wi.bytesWritten)))) →
      (WriteInternal env v chunk).vn.wi.comp = ⟨false, 0⟩ ∧
      (WriteInternal env v chunk).vn.compressedFlag = false ∧
      (WriteInternal env v chunk).vn.blockCount = v.blockCount) ∧
    (v.wi.bytesWritten + min chunk.length (v.blobSize - v.wi.bytesWritten) = v.blobSize →
      env.upd v.wi.comp.size
          (chunk.take (min chunk.length (v.blobSize - v.wi.bytesWritten))) ≤
        v.blobSize - env.minSaved →
      env.fin (env.upd v.wi.comp.size
          (chunk.take (min chunk.length (v.blobSize - v.wi.bytesWritten)))) ≤
        v.blobSize - env.minSaved →
      env.root (v.buf ++ chunk.take (min chunk.length (v.blobSize - v.wi.bytesWritten))) =
        v.digest →
      (WriteInternal env v chunk).vn.compressedFlag = true ∧
      (WriteInternal env v chunk).vn.blockCount < v.blockCount) := by
  simp only [WriteInternal, if_neg hne, hst, reduceIte, hcomp, if_true]
  refine ⟨?_, ?_, ?_⟩
  · intro hlt hexceed
    rw [if_pos hlt]
    show ConsiderCompressionAbort env.minSaved v.blobSize _ = _
    simp only [ConsiderCompressionAbort, if_pos hexceed]
  · intro heq hkeep hexceed
    have hnlt : ¬ v.wi.bytesWritten + min chunk.length (v.blobSize - v.wi.bytesWritten) <
        v.blobSize := by omega
    rw [if_neg hnlt]
    have habort1 : ConsiderCompressionAbort env.minSaved v.blobSize
        ⟨true, env.upd v.wi.comp.size
          (chunk.take (min chunk.length (v.blobSize - v.wi.bytesWritten)))⟩ =
        ⟨true, env.upd v.wi.comp.size
          (chunk.take (min chunk.length (v.blobSize - v.wi.bytesWritten)))⟩ := by
      simp only [ConsiderCompressionAbort, if_neg (by omega : ¬ v.blobSize - env.minSaved <
        env.upd v.wi.comp.size
          (chunk.take (min chunk.length (v.blobSize - v.wi.bytesWritten))))]
    simp only [WriteComplete, habort1, if_true]
    have habort2 : ConsiderCompressionAbort env.minSaved v.blobSize
        ⟨true, env.fin (env.upd v.wi.comp.size
          (chunk.take (min chunk.length (v.blobSize - v.wi.bytesWritten))))⟩ =
        (⟨false, 0⟩ : Compressor) := by
      simp only [ConsiderCompressionAbort, if_pos hexceed]
    simp only [habort2]
    split
    · exact ⟨by trivial, hcf, rfl⟩
    · exact ⟨by trivial, hcf, rfl⟩
  · intro heq hkeep1 hkeep2 hroot
    have hnlt : ¬ v.wi.bytesWritten + min chunk.length (v.blobSize - v.wi.bytesWritten) <
        v.blobSize := by omega
    rw [if_neg hnlt]
    have habort1 : ConsiderCompressionAbort env.minSaved v.blobSize
        ⟨true, env.upd v.wi.comp.size
          (chunk.take (min chunk.length (v.blobSize - v.wi.bytesWritten)))⟩ =
        ⟨true, env.upd v.wi.comp.size
          (chunk.take (min chunk.length (v.blobSize - v.wi.bytesWritten)))⟩ := by
      simp only [ConsiderCompressionAbort, if_neg (by omega : ¬ v.blobSize - env.minSaved <
        env.upd v.wi.comp.size
          (chunk.take (min chunk.length (v.blobSize - v.wi.bytesWritten))))]
    have habort2 : ConsiderCompressionAbort env.minSaved v.blobSize
        ⟨true, env.fin (env.upd v.wi.comp.size
          (chunk.take (min chunk.length (v.blobSize - v.wi.bytesWritten))))⟩ =
        ⟨true, env.fin (env.upd v.wi.comp.size
          (chunk.take (min chunk.length (v.blobSize - v.wi.bytesWritten))))⟩ := by
      simp only [ConsiderCompressionAbort, if_neg (by omega : ¬ v.blobSize - env.minSaved <
        env.fin (env.upd v.wi.comp.size
          (chunk.take (min chunk.length (v.blobSize - v.wi.bytesWritten)))))]
    simp only [WriteComplete, habort1, habort2, if_true, hroot, ne_eq, not_true_eq_false,
      if_false, reduceIte]
    refine ⟨by trivial, ?_⟩
    show divCeil (env.fin (env.upd v.wi.comp.size
        (chunk.take (min chunk.length (v.blobSize - v.wi.bytesWritten))))) env.bs +
        MerkleTreeBlocks env v.blobSize < v.blockCount
    rw [hbc]
    have := divCeil_lt_of_le_sub
      (env.fin (env.upd v.wi.comp.size
        (chunk.take (min chunk.length (v.blobSize - v.wi.bytesWritten)))))
      v.blobSize env.bs env.minSaved hbs hmin hsz hkeep2
    unfold BlobDataBlocks
    omega

/-- A concrete environment for the compression path: block size 2,
`kCompressionMinBytesSaved = 2`, a compressor whose size grows by one per
update and is unchanged by `End`, and a matching root oracle. -/
def compEnv : Env := ⟨2, 4, 2, fun _ => 2, fun _ => 0, fun s _ => s + 1, fun s => s⟩

/-- A four-byte blob with an active compressor, reserved at 3 blocks
(1 merkle + 2 data). -/
def compVn : VnodeW := ⟨.dataWrite, 4, 3, false, 0, [], ⟨0, ⟨true, 0⟩, [3]⟩⟩

/-- Witness for `writeInternal_compression` at a concrete input (part (c):
compression kept). -/
theorem writeInternal_compression_witness :
    (WriteInternal compEnv compVn [1, 2, 3, 4]).vn.compressedFlag = true ∧
    (WriteInternal compEnv compVn [1, 2, 3, 4]).vn.blockCount < compVn.blockCount :=
  (writeInternal_compression compEnv compVn [1, 2, 3, 4] rfl rfl (by decide) rfl
    (by decide) (by decide) (by decide) (by decide)).2.2
    (by decide) (by decide) (by decide) (by decide)

/-- The environment `VnodeBlob::SpaceAllocate` consults:
- `bs`, `treeLen`, `root` as in `Env` (`Verify()` on the empty blob succeeds
  exactly when `root []` equals the digest the blob was opened under);
- `freeNodes`: how many nodes `blobfs_->ReserveNodes` can supply;
- `reserveBlocksResult n`: the extents (as lengths) `blobfs_->ReserveBlocks`
  carves for `n` blocks, or `none` for `ZX_ERR_NO_SPACE`;
- `maxExtents` is `kMaxBlobExtents`;
- `nodeCountForExtents` is `NodePopulator::NodeCountForExtents`. -/
structure SAEnv where
  bs : Nat
  treeLen : Nat → Nat
  root : List Nat → Nat
  freeNodes : Nat
  reserveBlocksResult : Nat → Option (List Nat)
  maxExtents : Nat
  nodeCountForExtents : Nat → Nat

/-- Observable outcome of `SpaceAllocate`: status, resulting vnode state, the
inode fields set by the call, how many nodes and blocks were reserved during
the call, whether `WriteMetadata` ran (persisting the node through the
journal), and whether any data write was issued. -/
structure SAResult where
  status : Status
  state : BlobState
  blobSize : Nat
  blockCount : Nat
  reservedNodes : Nat
  reservedBlocks : Nat
  metaWritten : Bool
  dataWriteIssued : Bool
  deriving DecidableEq, Repr

/-- `VnodeBlob::SpaceAllocate` (blobfs.cpp:385-474), entered on a vnode in
state `state0` opened under digest `d`.  For the null blob
(`size_data == 0`, blobfs.cpp:401-418) the source reserves one node, runs
`Verify()` (comparing the empty blob's Merkle root to `d`), sets `DataWrite`
and immediately calls `WriteMetadata`, which marks the node allocated,
persists it, enqueues the metadata through the journal and sets the state to
`Readable`; no block is reserved and no data write is issued.  For
`size_data > 0` blocks and nodes are reserved and the state becomes
`DataWrite`.  VMO creation and the compressor initialization are modelled as
succeeding. -/
def SpaceAllocate (env : SAEnv) (state0 : BlobState) (d : Nat) (sizeData : Nat) : SAResult :=
  if state0 ≠ .empty then ⟨.errBadState, state0, 0, 0, 0, 0, false, false⟩
  else
    let blockCount := divCeil (env.treeLen sizeData) env.bs + divCeil sizeData env.bs
    if sizeData = 0 then
      if env.freeNodes < 1 then ⟨.errNoSpace, .empty, sizeData, blockCount, 0, 0, false, false⟩
      else if env.root [] ≠ d then
        ⟨.errIoDataIntegrity, .empty, sizeData, blockCount, 1, 0, false, false⟩
      else
        ⟨.ok, .readable, sizeData, blockCount, 1, 0, true, false⟩
    else
      match env.reserveBlocksResult blockCount with
      | none => ⟨.errNoSpace, .empty, sizeData, blockCount, 0, 0, false, false⟩
      | some extents =>
        if env.maxExtents < extents.length then
          ⟨.errBadState, .empty, sizeData, blockCount, 0, 0, false, false⟩
        else
          let nodeCount := env.nodeCountForExtents extents.length
          if env.freeNodes < nodeCount then
            ⟨.errNoSpace, .empty, sizeData, blockCount, 0, 0, false, false⟩
          else
            ⟨.ok, .dataWrite, sizeData, blockCount, nodeCount, extents.sum, false, false⟩

theorem divCeil_zero (b : Nat) : divCeil 0 b = 0 := by
  unfold divCeil
  match b with
  | 0 => rfl
  | b + 1 =>
    simp only [Nat.zero_add]
    exact Nat.div_eq_of_lt (by omega)

/-- C3: `SpaceAllocate` with `size_data = 0` (null blob) reserves exactly one
node and zero data blocks; the empty blob is verified against the well-known
empty-tree digest `root []` — if the opened name differs the call fails with
`ZX_ERR_IO_DATA_INTEGRITY` and no metadata is written — and on a match
`WriteMetadata` is invoked immediately with no data write issued, leaving
the blob `Readable` (with `block_count = 0`, since `GetTreeLength 0 = 0`)
when `SpaceAllocate` returns `ZX_OK`. -/
theorem spaceAllocate_null (env : SAEnv) (d : Nat)
    (hn : 1 ≤ env.freeNodes)
    (htree : env.treeLen 0 = 0) :
    (env.root [] = d →
      SpaceAllocate env .empty d 0 = ⟨.ok, .readable, 0, 0, 1, 0, true, false⟩) ∧
    (env.root [] ≠ d →
      (SpaceAllocate env .empty d 0).status = .errIoDataIntegrity ∧
      (SpaceAllocate env .empty d 0).reservedBlocks = 0 ∧
      (SpaceAllocate env .empty d 0).metaWritten = false) := by
  have hbc : divCeil (env.treeLen 0) env.bs + divCeil 0 env.bs = 0 := by
    rw [htree, divCeil_zero]
  have hlt : ¬ env.freeNodes < 1 := by omega
  constructor
  · intro hroot
    simp only [SpaceAllocate, reduceIte, if_neg hlt, hroot, ne_eq, not_true_eq_false,
      if_false, hbc]
  · intro hroot
    simp only [SpaceAllocate, reduceIte, if_neg hlt, if_pos hroot, hbc]
    exact ⟨rfl, rfl, rfl⟩

/-- A concrete environment for the null-blob path whose empty-tree digest
is `9`. -/
def nullEnv : SAEnv := ⟨2, fun _ => 0, fun _ => 9, 5, fun _ => some [1], 10, fun n => n⟩

/-- Witness for `spaceAllocate_null` at a concrete input. -/
theorem spaceAllocate_null_witness :
    SpaceAllocate nullEnv .empty 9 0 =
      ⟨.ok, .readable, 0, 0, 1, 0, true, false⟩ :=
  (spaceAllocate_null nullEnv 9 (by decide) (by decide)).1 (by decide)

/-- `VnodeBlob::InitCompressed` (blobfs.cpp:236-319), restricted to the
decompression logic once the merkle and compressed blocks have been read from
the device (the block reads are modelled by handing the function the
compressed payload).  `dec` is `Decompressor::Decompress` with target
capacity `blob_size`: it yields the produced bytes or an error status.  The
source requires the produced length (`target_size`) to equal `blob_size`
exactly, else `ZX_ERR_IO_DATA_INTEGRITY` (blobfs.cpp:310-314). -/
def InitCompressed (dec : List Nat → Except Status (List Nat)) (blobSize : Nat)
    (compressedBytes : List Nat) : Status × List Nat :=
  match dec compressedBytes with
  | .error st => (st, [])
  | .ok out => if out.length = blobSize then (.ok, out) else (.errIoDataIntegrity, [])

/-- The vnode state `VnodeBlob::ReadInternal` consults: lifecycle state,
`inode_.blob_size`, the compression flag, the byte size of the Merkle region
(`MerkleTreeBlocks(inode_) * kBlobfsBlockSize`), and the mapped buffer
`[merkle || data]` after a successful `InitVmos`. -/
structure RVnode where
  state : BlobState
  blobSize : Nat
  compressedFlag : Bool
  merkleBytes : Nat
  vmo : List Nat
  deriving DecidableEq, Repr

/-- `VnodeBlob::ReadInternal` (blobfs.cpp:809-843).  `initStatus` is the
result of the `InitVmos()` call (blobfs.cpp:821): on failure it is returned
unchanged.  The returned triple is (status, `*actual`, the bytes copied out
of the data region). -/
def ReadInternal (v : RVnode) (initStatus : Status) (len off : Nat) :
    Status × Nat × List Nat :=
  if v.state ≠ .readable then (.errBadState, 0, [])
  else if v.blobSize = 0 then (.ok, 0, [])
  else if initStatus ≠ .ok then (initStatus, 0, [])
  else if v.blobSize ≤ off then (.ok, 0, [])
  else
    let len1 := if v.blobSize - off < len then v.blobSize - off else len
    (.ok, len1, (v.vmo.drop (v.merkleBytes + off)).take len1)

/-- C4: for a readable compressed blob, if the decompressor succeeds but
produces a length other than `blob_size`, first-read initialization fails
with `ZX_ERR_IO_DATA_INTEGRITY`, and a read of the blob returns that error
instead of succeeding. -/
theorem initCompressed_length_mismatch (dec : List Nat → Except Status (List Nat))
    (v : RVnode) (bytes out : List Nat) (len off : Nat)
    (hdec : dec bytes = .ok out)
    (hlen : out.length ≠ v.blobSize)
    (hst : v.state = .readable)
    (_hflag : v.compressedFlag = true)
    (hpos : 0 < v.blobSize) :
    (InitCompressed dec v.blobSize bytes).1 = .errIoDataIntegrity ∧
    (ReadInternal v (InitCompressed dec v.blobSize bytes).1 len off).1 =
      .errIoDataIntegrity := by
  have h1 : (InitCompressed dec v.blobSize bytes).1 = .errIoDataIntegrity := by
    simp only [InitCompressed, hdec, if_neg hlen]
  refine ⟨h1, ?_⟩
  rw [h1]
  have h0 : ¬ v.blobSize = 0 := by omega
  simp [ReadInternal, hst, h0]

/-- Witness for `initCompressed_length_mismatch` at a concrete input. -/
theorem initCompressed_length_mismatch_witness :
    (InitCompressed (fun _ => .ok [1, 2, 3])
      (⟨.readable, 2, true, 2, [0, 0, 5, 6]⟩ : RVnode).blobSize [8, 8]).1 =
      .errIoDataIntegrity ∧
    (ReadInternal ⟨.readable, 2, true, 2, [0, 0, 5, 6]⟩
      (InitCompressed (fun _ => .ok [1, 2, 3])
        (⟨.readable, 2, true, 2, [0, 0, 5, 6]⟩ : RVnode).blobSize [8, 8]).1 1 0).1 =
      .errIoDataIntegrity :=
  initCompressed_length_mismatch (fun _ => .ok [1, 2, 3])
    ⟨.readable, 2, true, 2, [0, 0, 5, 6]⟩ [8, 8] [1, 2, 3] 1 0
    rfl (by decide) rfl rfl (by decide)

/-- C6: for a blob in state `Readable` (with a successful `InitVmos`),
`read(data, len, off)` with `off ≥ blob_size` returns `ZX_OK` with 0 bytes;
with `off < blob_size` it returns exactly `min(len, blob_size - off)` bytes,
copied from the data region (the mapped buffer past the Merkle region); in
any state other than `Readable` it returns `ZX_ERR_BAD_STATE`. -/
theorem readInternal_spec (v : RVnode) (len off : Nat)
    (hvmo : v.merkleBytes + v.blobSize ≤ v.vmo.length) :
    (v.state ≠ .readable → ReadInternal v .ok len off = (.errBadState, 0, [])) ∧
    (v.state = .readable → v.blobSize ≤ off → ReadInternal v .ok len off = (.ok, 0, [])) ∧
    (v.state = .readable → off < v.blobSize →
      (ReadInternal v .ok len off).1 = .ok ∧
      (ReadInternal v .ok len off).2.1 = min len (v.blobSize - off) ∧
      (ReadInternal v .ok len off).2.2 =
        (v.vmo.drop (v.merkleBytes + off)).take (min len (v.blobSize - off)) ∧
      (ReadInternal v .ok len off).2.2.length = min len (v.blobSize - off)) := by
  refine ⟨?_, ?_, ?_⟩
  · intro hst
    simp [ReadInternal, hst]
  · intro hst hoff
    by_cases h0 : v.blobSize = 0
    · simp [ReadInternal, hst, h0]
    · simp [ReadInternal, hst, h0, hoff]
  · intro hst hoff
    have h0 : ¬ v.blobSize = 0 := by omega
    have hno : ¬ v.blobSize ≤ off := by omega
    have hlen1 : (if v.blobSize - off < len then v.blobSize - off else len) =
        min len (v.blobSize - off) := by
      split <;> omega
    simp only [ReadInternal, hst, ne_eq, not_true_eq_false, if_false, h0, hno,
      reduceIte, hlen1]
    refine ⟨by trivial, by trivial, by trivial, ?_⟩
    rw [List.length_take, List.length_drop]
    omega

/-- Witness for `readInternal_spec` at a concrete input. -/
theorem readInternal_spec_witness :
    (ReadInternal ⟨.readable, 2, false, 2, [0, 0, 5, 6]⟩ .ok 5 0).1 = .ok ∧
    (ReadInternal ⟨.readable, 2, false, 2, [0, 0, 5, 6]⟩ .ok 5 0).2.1 = min 5 (2 - 0) ∧
    (ReadInternal ⟨.readable, 2, false, 2, [0, 0, 5, 6]⟩ .ok 5 0).2.2 =
      ((⟨.readable, 2, false, 2, [0, 0, 5, 6]⟩ : RVnode).vmo.drop (2 + 0)).take
        (min 5 (2 - 0)) ∧
    (ReadInternal ⟨.readable, 2, false, 2, [0, 0, 5, 6]⟩ .ok 5 0).2.2.length =
      min 5 (2 - 0) :=
  (readInternal_spec ⟨.readable, 2, false, 2, [0, 0, 5, 6]⟩ 5 0 (by decide)).2.2
    rfl (by decide)

/-- An extent: `(start_block, length)`. -/
structure Extent where
  start : Nat
  length : Nat
  deriving DecidableEq, Repr

/-- The set of block indices an extent covers. -/
def Extent.blocks (e : Extent) : Finset Nat := Finset.Ico e.start (e.start + e.length)

/-- The allocator-visible filesystem state: the on-disk block allocation
bitmap (as the set of set bits), the set of allocated nodes (primary inodes
and extent containers), and the superblock counters `alloc_block_count` /
`alloc_inode_count`. -/
structure FsState where
  blockMap : Finset Nat
  nodeMap : Finset Nat
  allocBlockCount : Nat
  allocInodeCount : Nat
  deriving DecidableEq

/-- `Blobfs::PersistBlocks` (blobfs.cpp:876-886): mark the reserved extent's
bits allocated (`allocator_->MarkBlocksAllocated`) and add exactly the
extent's length to `alloc_block_count` (the bitmap and superblock writes are
enqueued to the same work item). -/
def PersistBlocks (s : FsState) (e : Extent) : FsState :=
  { s with
    blockMap := s.blockMap ∪ e.blocks
    allocBlockCount := s.allocBlockCount + e.length }

/-- `Allocator::CheckBlocksAllocated(start, end)`: whether all bits in
`[start, end)` are set. -/
def CheckBlocksAllocated (s : FsState) (e : Extent) : Prop := e.blocks ⊆ s.blockMap

instance (s : FsState) (e : Extent) : Decidable (CheckBlocksAllocated s e) := by
  unfold CheckBlocksAllocated
  infer_instance

/-- `Blobfs::FreeExtent` (blobfs.cpp:889-903): only if the blocks are
allocated on disk, clear the bits and subtract exactly the freed extent's
length from `alloc_block_count`. -/
def FreeExtent (s : FsState) (e : Extent) : FsState :=
  if CheckBlocksAllocated s e then
    { s with
      blockMap := s.blockMap \ e.blocks
      allocBlockCount := s.allocBlockCount - e.length }
  else s

/-- `Allocator::MarkInodeAllocated`, invoked on the reserved node right
before `PersistNode` (blobfs.cpp:555 and via `NodePopulator::Walk`). -/
def MarkInodeAllocated (s : FsState) (i : Nat) : FsState :=
  { s with nodeMap := insert i s.nodeMap }

/-- `Blobfs::PersistNode` (blobfs.cpp:938-943): increment
`alloc_inode_count` by one and enqueue the node and superblock writes. -/
def PersistNode (s : FsState) : FsState :=
  { s with allocInodeCount := s.allocInodeCount + 1 }

/-- `Blobfs::FreeNode` (blobfs.cpp:905-909): free the node in the allocator
and decrement `alloc_inode_count` by one. -/
def FreeNode (s : FsState) (i : Nat) : FsState :=
  { s with
    nodeMap := s.nodeMap.erase i
    allocInodeCount := s.allocInodeCount - 1 }

/-- The allocation-accounting invariant: `alloc_block_count` equals the
number of set bits in the block bitmap and `alloc_inode_count` equals the
number of allocated nodes (primary inodes plus containers). -/
def AccountingInv (s : FsState) : Prop :=
  s.allocBlockCount = s.blockMap.card ∧ s.allocInodeCount = s.nodeMap.card

instance (s : FsState) : Decidable (AccountingInv s) := by
  unfold AccountingInv
  infer_instance

/-- C8: the accounting invariant is preserved by every commit and free
operation: `PersistBlocks` on a reserved (hence not-yet-allocated) extent,
`FreeExtent` (which frees only when the blocks were allocated, and is a
no-op otherwise), `MarkInodeAllocated` followed by `PersistNode` on a
reserved (not-yet-allocated) node, and `FreeNode` on an allocated node. -/
theorem accounting_invariant (s : FsState) (e : Extent) (i : Nat)
    (hinv : AccountingInv s) :
    (Disjoint e.blocks s.blockMap → AccountingInv (PersistBlocks s e)) ∧
    AccountingInv (FreeExtent s e) ∧
    (i ∉ s.nodeMap → AccountingInv (PersistNode (MarkInodeAllocated s i))) ∧
    (i ∈ s.nodeMap → AccountingInv (FreeNode s i)) := by
  obtain ⟨hb, hn⟩ := hinv
  refine ⟨?_, ?_, ?_, ?_⟩
  · intro hdis
    constructor
    · show s.allocBlockCount + e.length = (s.blockMap ∪ e.blocks).card
      rw [Finset.union_comm, Finset.card_union_of_disjoint hdis]
      have : e.blocks.card = e.length := by
        rw [Extent.blocks, Nat.card_Ico]
        omega
      omega
    · exact hn
  · unfold FreeExtent
    split
    · rename_i hsub
      constructor
      · show s.allocBlockCount - e.length = (s.blockMap \ e.blocks).card
        rw [Finset.card_sdiff hsub]
        have hle : e.blocks.card ≤ s.blockMap.card := Finset.card_le_card hsub
        have : e.blocks.card = e.length := by
          rw [Extent.blocks, Nat.card_Ico]
          omega
        omega
      · exact hn
    · exact ⟨hb, hn⟩
  · intro hmem
    constructor
    · exact hb
    · show s.allocInodeCount + 1 = (insert i s.nodeMap).card
      rw [Finset.card_insert_of_not_mem hmem]
      omega
  · intro hmem
    constructor
    · exact hb
    · show s.allocInodeCount - 1 = (s.nodeMap.erase i).card
      rw [Finset.card_erase_of_mem hmem]
      omega

/-- Witness for `accounting_invariant` at a concrete state. -/
theorem accounting_invariant_witness :
    AccountingInv (FreeExtent ⟨{0, 1, 4}, {2}, 3, 1⟩ ⟨0, 2⟩) :=
  (accounting_invariant ⟨{0, 1, 4}, {2}, 3, 1⟩ ⟨0, 2⟩ 7 (by decide)).2.1

/-- The two keyed-by-digest cache tables guarded by `hash_lock_`:
`open_hash_` (raw pointers to vnodes with at least one external handle) and
`closed_hash_` (leaked refs to fully-released vnodes retained for warm
lookup), modelled by the sets of digests they contain. -/
structure Cache where
  openT : Finset Nat
  closedT : Finset Nat
  deriving DecidableEq

/-- `Blobfs::LookupBlob` (blobfs.cpp:1170-1220): probe `open_hash_`; on a hit
upgrade the raw pointer (no table change); on a miss,
`VnodeUpgradeLocked` (blobfs.cpp:1647-1657) moves the vnode from
`closed_hash_` into `open_hash_`; otherwise `ZX_ERR_NOT_FOUND`.  The third
component records whether the returned reference was resurrected from the
closed table (and is therefore the only strong reference). -/
def LookupBlob (c : Cache) (d : Nat) : Status × Cache × Bool :=
  if d ∈ c.openT then (.ok, c, false)
  else if d ∈ c.closedT then (.ok, ⟨insert d c.openT, c.closedT.erase d⟩, true)
  else (.errNotFound, c, false)

/-- The drop of `LookupBlob`'s temporary strong reference when the caller
passed `out == nullptr` (as `Blobfs::NewBlob` does): if the vnode was
resurrected from the closed table, the reference count returns to zero and
`fbl_recycle` runs `Blobfs::VnodeReleaseSoft` (blobfs.cpp:1568-1574), moving
the vnode from `open_hash_` back into `closed_hash_`; otherwise only the
count drops and the tables are untouched. -/
def ReleaseLookupRef (c : Cache) (d : Nat) (fromClosed : Bool) : Cache :=
  if fromClosed then ⟨c.openT.erase d, insert d c.closedT⟩ else c

/-- `Blobfs::NewBlob` (blobfs.cpp:1056-1074): if `LookupBlob` does not report
`ZX_ERR_NOT_FOUND`, return `ZX_ERR_ALREADY_EXISTS` (or the lookup error);
only on `NOT_FOUND` adopt a fresh vnode and insert it into `open_hash_`. -/
def NewBlob (c : Cache) (d : Nat) : Status × Cache :=
  let r := LookupBlob c d
  match r.1 with
  | .errNotFound => (.ok, ⟨insert d r.2.1.openT, r.2.1.closedT⟩)
  | .ok => (.errAlreadyExists, ReleaseLookupRef r.2.1 d r.2.2)
  | st => (st, r.2.1)

/-- C9: creating a blob under a digest already present in either cache table
fails with `ZX_ERR_ALREADY_EXISTS` and leaves both tables unchanged; a fresh
vnode is inserted into the open table only when lookup reports
`ZX_ERR_NOT_FOUND`. -/
theorem newBlob_spec (c : Cache) (d : Nat) :
    (d ∈ c.openT ∪ c.closedT →
      (NewBlob c d).1 = .errAlreadyExists ∧ (NewBlob c d).2 = c) ∧
    (d ∉ c.openT → d ∉ c.closedT →
      (NewBlob c d).1 = .ok ∧ (NewBlob c d).2 = ⟨insert d c.openT, c.closedT⟩) := by
  obtain ⟨o, cl⟩ := c
  by_cases ho : d ∈ o
  · constructor
    · intro _
      simp [NewBlob, LookupBlob, ho, ReleaseLookupRef]
    · intro h
      exact absurd ho h
  · by_cases hc : d ∈ cl
    · constructor
      · intro _
        simp only [NewBlob, LookupBlob, if_neg ho, if_pos hc, ReleaseLookupRef, if_pos]
        refine ⟨by trivial, ?_⟩
        show (⟨(insert d o).erase d, insert d (cl.erase d)⟩ : Cache) = ⟨o, cl⟩
        rw [Finset.erase_insert ho, Finset.insert_erase hc]
      · intro _ h
        exact absurd hc h
    · constructor
      · intro hmem
        rcases Finset.mem_union.mp hmem with h | h
        · exact absurd h ho
        · exact absurd h hc
      · intro _ _
        simp [NewBlob, LookupBlob, ho, hc]

/-- Witness for `newBlob_spec` at a concrete cache: digest 2 lives in the
closed table; re-creating it fails and the tables are unchanged. -/
theorem newBlob_spec_witness :
    (NewBlob ⟨{1}, {2}⟩ 2).1 = .errAlreadyExists ∧
    (NewBlob ⟨{1}, {2}⟩ 2).2 = (⟨{1}, {2}⟩ : Cache) :=
  (newBlob_spec ⟨{1}, {2}⟩ 2).1 (by decide)

/-- The vnode state `VnodeBlob::CloneVmo` branches on. -/
structure CloneVnode where
  state : BlobState
  blobSize : Nat
  deriving DecidableEq, Repr

/-- `VnodeBlob::CloneVmo` (blobfs.cpp:752-798): requires state `Readable`
(else `ZX_ERR_BAD_STATE`), rejects `blob_size == 0` with
`ZX_ERR_BAD_STATE`, propagates an `InitVmos` failure, and otherwise performs
the copy-on-write clone of the data region; `downstream` is the combined
status of the clone/replace syscalls. -/
def CloneVmo (v : CloneVnode) (initStatus downstream : Status) : Status :=
  if v.state ≠ .readable then .errBadState
  else if v.blobSize = 0 then .errBadState
  else if initStatus ≠ .ok then initStatus
  else downstream

/-- C10: a VMO clone of a blob with `blob_size = 0` fails with
`ZX_ERR_BAD_STATE` even when the blob is `Readable`; `CloneVmo` succeeds
only for readable blobs with `blob_size > 0`. -/
theorem cloneVmo_spec (v : CloneVnode) (initStatus downstream : Status) :
    (v.blobSize = 0 → CloneVmo v initStatus downstream = .errBadState) ∧
    (CloneVmo v initStatus downstream = .ok →
      v.state = .readable ∧ 0 < v.blobSize) := by
  constructor
  · intro h0
    unfold CloneVmo
    split
    · rfl
    · simp [h0]
  · intro hok
    unfold CloneVmo at hok
    by_cases hst : v.state ≠ .readable
    · rw [if_pos hst] at hok
      exact absurd hok (by simp)
    · rw [if_neg hst] at hok
      by_cases h0 : v.blobSize = 0
      · rw [if_pos h0] at hok
        exact absurd hok (by simp)
      · push_neg at hst
        exact ⟨hst, by omega⟩

/-- Witness for `cloneVmo_spec`: a readable null blob is refused. -/
theorem cloneVmo_spec_witness :
    CloneVmo ⟨.readable, 0⟩ .ok .ok = .errBadState :=
  (cloneVmo_spec ⟨.readable, 0⟩ .ok .ok).1 rfl

end Blobfs
